import Mathlib

/-!
Verification of the post-content codec, payload validators, UUID validator and
post resource handlers of this repository.

The TypeScript sources are embedded shallowly:

* `src/src/app/page.tsx` : `parsePostContent`, `serializeContent` and the
  `MediaItem` / `ParsedContent` shapes.
* `src/src/app/api/posts/route.ts` (unnamed source file) : `isUuid`,
  `validateCreatePostPayload` and the `GET` / `POST` collection handlers.
* `src/src/app/api/posts/[id]/route.ts` : `validateUpdatePayload`,
  `invalidIdResponse` and the `GET` / `PUT` / `DELETE` per-resource handlers.

The JavaScript runtime pieces the code relies on (`JSON.parse`,
`JSON.stringify`, truthiness, `typeof`, property access on parsed values) are
modelled executably below on an inductive `Json` type, following ECMAScript
semantics: `JSON.parse` keeps the last of duplicate object keys, member access
on a non-object parsed value yields `undefined` (here `Option.none`), member
access on `null` throws (surfaced as a distinguished case where the caller's
`try` block is concerned), and `JSON.stringify` escapes the quote, the
backslash and the control characters.
-/

/-- A JavaScript JSON value. Numbers keep their source lexeme (the repository
never computes with them, so the lexeme is the faithful representation). -/
inductive Json where
  | jnull
  | jbool (b : Bool)
  | jnum (tok : String)
  | jstr (s : String)
  | jarr (elems : List Json)
  | jobj (fields : List (String × Json))

/-- Decimal digit test, as in the JSON grammar. -/
def isDigitChar (c : Char) : Bool := '0' ≤ c && c ≤ '9'

/-- Characters that may occur in a JSON number lexeme. -/
def isNumChar (c : Char) : Bool :=
  isDigitChar c || c = '-' || c = '+' || c = '.' || c = 'e' || c = 'E'

/-- The exponent tail of a number lexeme: empty, or `e`/`E`, an optional
sign and one or more digits. -/
def numExpOk (cs : List Char) : Bool :=
  match cs with
  | [] => true
  | 'e' :: r => numSignedDigits r
  | 'E' :: r => numSignedDigits r
  | _ => false
where
  numSignedDigits (r : List Char) : Bool :=
    let r' := match r with
      | '+' :: t => t
      | '-' :: t => t
      | t => t
    !r'.isEmpty && r'.all isDigitChar

/-- The fractional tail of a number lexeme: an optional `.` with one or more
digits, then an exponent tail. -/
def numFracOk (cs : List Char) : Bool :=
  match cs with
  | '.' :: r =>
    !(r.takeWhile isDigitChar).isEmpty && numExpOk (r.dropWhile isDigitChar)
  | r => numExpOk r

/-- Whether a lexeme is a number of the JSON grammar: optional minus, an
integer part that is `0` or starts with a nonzero digit, then fraction and
exponent tails. -/
def numTokenOk (cs : List Char) : Bool :=
  let body := match cs with
    | '-' :: r => r
    | r => r
  match body with
  | '0' :: r => numFracOk r
  | c :: _ => isDigitChar c && numFracOk (body.dropWhile isDigitChar)
  | [] => false

/-- Whether a well-formed number lexeme denotes zero: every digit of its
mantissa (the part before any exponent marker) is `0`. -/
def numIsZero (cs : List Char) : Bool :=
  (cs.takeWhile (fun c => !(c = 'e' || c = 'E'))).all (fun c => !isDigitChar c || c = '0')

/-- JavaScript truthiness of a JSON value: `null`, `false`, `0` and `""` are
falsy; every object and array is truthy. -/
def jsTruthy (j : Json) : Bool :=
  match j with
  | .jnull => false
  | .jbool b => b
  | .jnum tok => !numIsZero tok.data
  | .jstr s => !(s = "")
  | .jarr _ => true
  | .jobj _ => true

/-- JavaScript `typeof v === 'object'`: true for objects, arrays and `null`. -/
def jsTypeofObject (j : Json) : Bool :=
  match j with
  | .jnull => true
  | .jarr _ => true
  | .jobj _ => true
  | _ => false

/-- Value of a key in a parsed JSON object; a duplicate key keeps the last
occurrence, as `JSON.parse` does. -/
def jsonLookup (fields : List (String × Json)) (key : String) : Option Json :=
  (fields.reverse.find? (fun kv => kv.1 == key)).map (fun kv => kv.2)

/-- JavaScript member access `j.key` on a parsed value that is not `null`:
an own property of an object, `undefined` (`none`) otherwise. -/
def Json.getProp (j : Json) (key : String) : Option Json :=
  match j with
  | .jobj fields => jsonLookup fields key
  | _ => none

/-! ## `JSON.stringify`, modelled

Rendering goes to `List Char`; `jsonStringify` packs the result into a
`String`. Escaping follows the ECMAScript `QuoteJSONString` algorithm: quote,
backslash, the named control escapes, and `\u00xx` for the remaining control
characters (lowercase hex). -/

/-- The lowercase hexadecimal digit of a nibble. -/
def hexChar (n : Nat) : Char :=
  if n < 10 then Char.ofNat (48 + n) else Char.ofNat (87 + n)

/-- JSON escape of one character, per `JSON.stringify`. -/
def escChar (c : Char) : List Char :=
  if c = '"' then ['\\', '"']
  else if c = '\\' then ['\\', '\\']
  else if c = Char.ofNat 8 then ['\\', 'b']
  else if c = Char.ofNat 12 then ['\\', 'f']
  else if c = '\n' then ['\\', 'n']
  else if c = '\r' then ['\\', 'r']
  else if c = '\t' then ['\\', 't']
  else if c.toNat < 32 then
    ['\\', 'u', '0', '0', hexChar (c.toNat / 16), hexChar (c.toNat % 16)]
  else [c]

/-- A rendered string literal: quote, escaped content, quote. -/
def renderStr (s : String) : List Char :=
  '"' :: (s.data.flatMap escChar ++ ['"'])

mutual

/-- Characters of `JSON.stringify` applied to a value (no whitespace). -/
def renderVal : Json → List Char
  | .jnull => ['n', 'u', 'l', 'l']
  | .jbool true => ['t', 'r', 'u', 'e']
  | .jbool false => ['f', 'a', 'l', 's', 'e']
  | .jnum tok => tok.data
  | .jstr s => renderStr s
  | .jarr elems => '[' :: (renderArr elems ++ [']'])
  | .jobj fields => '{' :: (renderObj fields ++ ['}'])

/-- The comma-separated element list of an array. -/
def renderArr : List Json → List Char
  | [] => []
  | v :: vs => renderVal v ++ renderArrTail vs

/-- The `, element` continuation of an array body. -/
def renderArrTail : List Json → List Char
  | [] => []
  | v :: vs => ',' :: (renderVal v ++ renderArrTail vs)

/-- The comma-separated member list of an object. -/
def renderObj : List (String × Json) → List Char
  | [] => []
  | (k, v) :: kvs => renderStr k ++ (':' :: renderVal v) ++ renderObjTail kvs

/-- The `, member` continuation of an object body. -/
def renderObjTail : List (String × Json) → List Char
  | [] => []
  | (k, v) :: kvs => ',' :: (renderStr k ++ (':' :: renderVal v) ++ renderObjTail kvs)

end

/-- Model of `JSON.stringify` (on arguments without `undefined` holes, which
is all this repository passes to it). -/
def jsonStringify (j : Json) : String := String.mk (renderVal j)

/-! ## `JSON.parse`, modelled

A total recursive-descent reading of the JSON grammar. Value recursion is
paid for with fuel; the lexical layers (`dropWs`, `scanString`, number
lexemes) are structural. A failed parse is `none` — the callers in this
repository catch the exception and only ever branch on success. -/

/-- JSON insignificant whitespace. -/
def isWsChar (c : Char) : Bool := c = ' ' || c = '\t' || c = '\n' || c = '\r'

/-- Skip insignificant whitespace. -/
def dropWs (cs : List Char) : List Char := cs.dropWhile isWsChar

/-- Value of a hexadecimal digit. -/
def hexNibble (c : Char) : Option Nat :=
  if '0' ≤ c && c ≤ '9' then some (c.toNat - 48)
  else if 'a' ≤ c && c ≤ 'f' then some (c.toNat - 87)
  else if 'A' ≤ c && c ≤ 'F' then some (c.toNat - 55)
  else none

/-- The character a single-letter escape denotes. -/
def escCode (c : Char) : Option Char :=
  match c with
  | '"' => some '"'
  | '\\' => some '\\'
  | '/' => some '/'
  | 'b' => some (Char.ofNat 8)
  | 'f' => some (Char.ofNat 12)
  | 'n' => some '\n'
  | 'r' => some '\r'
  | 't' => some '\t'
  | _ => none

/-- Read a string body after its opening quote, undoing escapes; yields the
content and the input after the closing quote. Raw control characters are
rejected, as in the JSON grammar. -/
def scanString : List Char → Option (List Char × List Char)
  | [] => none
  | '"' :: rest => some ([], rest)
  | '\\' :: 'u' :: h1 :: h2 :: h3 :: h4 :: rest => do
    let n1 ← hexNibble h1
    let n2 ← hexNibble h2
    let n3 ← hexNibble h3
    let n4 ← hexNibble h4
    let (body, rem) ← scanString rest
    pure (Char.ofNat (((n1 * 16 + n2) * 16 + n3) * 16 + n4) :: body, rem)
  | '\\' :: e :: rest => do
    let c ← escCode e
    let (body, rem) ← scanString rest
    pure (c :: body, rem)
  | c :: rest =>
    if c.toNat < 32 then none
    else do
      let (body, rem) ← scanString rest
      pure (c :: body, rem)

mutual

/-- Parse one JSON value, fuel-bounded. -/
def parseVal : Nat → List Char → Option (Json × List Char)
  | 0, _ => none
  | fuel + 1, cs =>
    match dropWs cs with
    | 'n' :: 'u' :: 'l' :: 'l' :: r => some (.jnull, r)
    | 't' :: 'r' :: 'u' :: 'e' :: r => some (.jbool true, r)
    | 'f' :: 'a' :: 'l' :: 's' :: 'e' :: r => some (.jbool false, r)
    | '"' :: r => (scanString r).map (fun p => (.jstr (String.mk p.1), p.2))
    | '[' :: r =>
      (match dropWs r with
       | ']' :: r2 => some (.jarr [], r2)
       | r2 => (parseItems fuel r2).map (fun p => (.jarr p.1, p.2)))
    | '{' :: r =>
      (match dropWs r with
       | '}' :: r2 => some (.jobj [], r2)
       | r2 => (parseFields fuel r2).map (fun p => (.jobj p.1, p.2)))
    | c :: r =>
      if c = '-' || isDigitChar c then
        let tok := (c :: r).takeWhile isNumChar
        if numTokenOk tok then some (.jnum (String.mk tok), (c :: r).dropWhile isNumChar)
        else none
      else none
    | [] => none

/-- Parse the nonempty element list of an array, up to and including `]`. -/
def parseItems : Nat → List Char → Option (List Json × List Char)
  | 0, _ => none
  | fuel + 1, cs => do
    let (v, r) ← parseVal fuel cs
    match dropWs r with
    | ',' :: r2 => (parseItems fuel r2).map (fun p => (v :: p.1, p.2))
    | ']' :: r2 => some ([v], r2)
    | _ => none

/-- Parse the nonempty member list of an object, up to and including `}`. -/
def parseFields : Nat → List Char → Option (List (String × Json) × List Char)
  | 0, _ => none
  | fuel + 1, cs =>
    match dropWs cs with
    | '"' :: r => do
      let (key, r1) ← scanString r
      match dropWs r1 with
      | ':' :: r2 => do
        let (v, r3) ← parseVal fuel r2
        match dropWs r3 with
        | ',' :: r4 => (parseFields fuel r4).map (fun p => ((String.mk key, v) :: p.1, p.2))
        | '}' :: r4 => some ([(String.mk key, v)], r4)
        | _ => none
      | _ => none
    | _ => none

end

/-- Model of `JSON.parse`: parse one value and require only whitespace after
it. `none` models the thrown `SyntaxError`. -/
def jsonParse (s : String) : Option Json :=
  match parseVal (2 * s.length + 1) s.data with
  | some (v, rest) => if dropWs rest = [] then some v else none
  | none => none

/-! ## `src/src/app/page.tsx` — the post content codec -/

/-- JavaScript `String.prototype.trim()`: strip leading and trailing
whitespace (the JS WhiteSpace / LineTerminator sets; the characters below
cover the ones that can occur here). Defined structurally on the character
list so that it evaluates by reduction. -/
def jsWhitespace (c : Char) : Bool :=
  c = ' ' || c = '\t' || c = '\n' || c = '\r'
    || c = Char.ofNat 11 || c = Char.ofNat 12 || c = Char.ofNat 0xa0
    || c = Char.ofNat 0xfeff || c = Char.ofNat 0x2028 || c = Char.ofNat 0x2029

/-- The trimmed string. -/
def String.jsTrim (s : String) : String :=
  String.mk (((s.data.dropWhile jsWhitespace).reverse.dropWhile jsWhitespace).reverse)

/-- The `kind` enum of a media entry (`'image' | 'video'`). -/
inductive MediaKind where
  | image
  | video
deriving Repr, DecidableEq

/-- The string literal a `MediaKind` stands for. -/
def MediaKind.toText : MediaKind → String
  | .image => "image"
  | .video => "video"

/-- `MediaItem` of `page.tsx`. -/
structure MediaItem where
  id : String
  kind : MediaKind
  url : String
deriving Repr, DecidableEq

/-- `ParsedContent` of `page.tsx`. -/
structure ParsedContent where
  body : String
  published : Bool
  media : List MediaItem
deriving Repr, DecidableEq

/-- The filter predicate `parsePostContent` applies to each media entry:
`Boolean(item && typeof item === 'object' && typeof item.id === 'string' &&
(item.kind === 'image' || item.kind === 'video') && typeof item.url ===
'string')`. -/
def mediaEntryOk (item : Json) : Bool :=
  jsTruthy item && jsTypeofObject item
    && (match item.getProp "id" with
        | some (.jstr _) => true
        | _ => false)
    && (match item.getProp "kind" with
        | some (.jstr s) => s = "image" || s = "video"
        | _ => false)
    && (match item.getProp "url" with
        | some (.jstr _) => true
        | _ => false)

/-- The map step `parsePostContent` applies after the filter:
`{ ...item, url: item.url.trim() }`, read back at the `MediaItem` type (the
filter guarantees each extraction hits its string case). -/
def mediaEntryItem (item : Json) : MediaItem :=
  { id := match item.getProp "id" with
      | some (.jstr s) => s
      | _ => ""
  , kind := match item.getProp "kind" with
      | some (.jstr "video") => .video
      | _ => .image
  , url := (match item.getProp "url" with
      | some (.jstr s) => s
      | _ => "").jsTrim }

/-- The successful-parse continuation of `parsePostContent`: member accesses
on the parsed value (`undefined`-tolerant, hence `Option`), `Boolean(...)`
coercion of `published`, and the media filter/map. -/
def decodeParsed (parsed : Json) : ParsedContent :=
  { body := match parsed.getProp "body" with
      | some (.jstr b) => b
      | _ => ""
  , published := match parsed.getProp "published" with
      | some v => jsTruthy v
      | none => false
  , media := match parsed.getProp "media" with
      | some (.jarr items) => (items.filter mediaEntryOk).map mediaEntryItem
      | _ => [] }

/-- `parsePostContent` of `page.tsx`. `raw` is `string | null`; the JS guard
`if (!raw)` catches both `null` and the empty string. A parsed `null` hits
the member access `parsed.media`, which throws a `TypeError` caught by the
surrounding `try`, so it lands in the same fallback as a failed parse. Any
other parsed value goes through `decodeParsed`. -/
def parsePostContent (raw : Option String) : ParsedContent :=
  match raw with
  | none => { body := "", published := false, media := [] }
  | some s =>
    if s = "" then { body := "", published := false, media := [] }
    else
      match jsonParse s with
      | none => { body := s, published := false, media := [] }
      | some .jnull => { body := s, published := false, media := [] }
      | some parsed => decodeParsed parsed

/-- The JSON object a `MediaItem` serializes to (field order as constructed
in `page.tsx`: `id`, `kind`, `url`). -/
def mediaItemJson (item : MediaItem) : Json :=
  .jobj [("id", .jstr item.id), ("kind", .jstr item.kind.toText), ("url", .jstr item.url)]

/-- The object `serializeContent` passes to `JSON.stringify`: exactly the
three fields `body`, `published` and `media`, the latter filtered by
`item.url.trim().length > 0`. -/
def contentJson (data : ParsedContent) : Json :=
  .jobj
    [ ("body", .jstr data.body)
    , ("published", .jbool data.published)
    , ("media", .jarr ((data.media.filter
        (fun item => item.url.jsTrim.length > 0)).map mediaItemJson)) ]

/-- `serializeContent` of `page.tsx`. -/
def serializeContent (data : ParsedContent) : String :=
  jsonStringify (contentJson data)

/-! ## The UUID validator

`isUuid` appears verbatim in both route files; it is embedded once. The
regular expression `/^[0-9a-f]{8}-[0-9a-f]{4}-[1-5][0-9a-f]{3}-[89ab][0-9a-f]{3}-[0-9a-f]{12}$/i`
is unrolled into its sequence of character-class groups. -/

/-- `[0-9a-f]` under the `i` flag. -/
def isHexDigit (c : Char) : Bool :=
  ('0' ≤ c && c ≤ '9') || ('a' ≤ c && c ≤ 'f') || ('A' ≤ c && c ≤ 'F')

/-- `[1-5]`, the version nibble class. -/
def isVersionNibble (c : Char) : Bool := '1' ≤ c && c ≤ '5'

/-- `[89ab]` under the `i` flag, the variant nibble class. -/
def isVariantNibble (c : Char) : Bool :=
  c = '8' || c = '9' || c = 'a' || c = 'b' || c = 'A' || c = 'B'

/-- Consume exactly `n` characters of class `p`. -/
def matchRun (p : Char → Bool) : Nat → List Char → Option (List Char)
  | 0, cs => some cs
  | _ + 1, [] => none
  | n + 1, c :: cs => if p c then matchRun p n cs else none

/-- Consume one literal character. -/
def matchLit (lit : Char) : List Char → Option (List Char)
  | c :: cs => if c = lit then some cs else none
  | [] => none

/-- `isUuid` of both route files: the anchored 8-4-4-4-12 pattern with the
version and variant classes, matched left to right over the whole string
(`$` = nothing may remain). -/
def isUuid (s : String) : Bool :=
  match
    (matchRun isHexDigit 8 s.data).bind (fun r =>
    (matchLit '-' r).bind (fun r =>
    (matchRun isHexDigit 4 r).bind (fun r =>
    (matchLit '-' r).bind (fun r =>
    (matchRun isVersionNibble 1 r).bind (fun r =>
    (matchRun isHexDigit 3 r).bind (fun r =>
    (matchLit '-' r).bind (fun r =>
    (matchRun isVariantNibble 1 r).bind (fun r =>
    (matchRun isHexDigit 3 r).bind (fun r =>
    (matchLit '-' r).bind (fun r =>
    (matchRun isHexDigit 12 r).bind (fun r =>
    if r.isEmpty then some () else none)))))))))))
  with
  | some _ => true
  | none => false

/-! ## The payload validators -/

/-- Result shape of both validators: `{valid: false, error}` or
`{valid: true, data}`. -/
inductive Validation (α : Type) where
  | invalid (error : String)
  | valid (data : α)

/-- `CreatePostPayload` of the collection route; `content = none` is the JS
`null`. -/
structure CreatePostPayload where
  title : String
  content : Option String
  profile_id : String
deriving Repr, DecidableEq

/-- `validateCreatePostPayload` of the collection route, rule for rule: the
object guard `!payload || typeof payload !== 'object'`, then `title`
(string, nonempty after trim), then `profile_id` (string passing `isUuid`),
then `content` (absent, `null` or string), and on success the normalized
`{title: title.trim(), content: content === undefined ? null : content,
profile_id}`. -/
def validateCreatePostPayload (payload : Json) : Validation CreatePostPayload :=
  if !(jsTruthy payload && jsTypeofObject payload) then
    .invalid "Request body must be a JSON object."
  else
    match payload.getProp "title" with
    | some (.jstr title) =>
      if title.jsTrim.length = 0 then
        .invalid "\"title\" is required and must be a non-empty string."
      else
        match payload.getProp "profile_id" with
        | some (.jstr pid) =>
          if !isUuid pid then
            .invalid "\"profile_id\" is required and must be a valid UUID."
          else
            match payload.getProp "content" with
            | none => .valid { title := title.jsTrim, content := none, profile_id := pid }
            | some .jnull => .valid { title := title.jsTrim, content := none, profile_id := pid }
            | some (.jstr c) => .valid { title := title.jsTrim, content := some c, profile_id := pid }
            | some _ => .invalid "\"content\" must be a string or null when provided."
        | _ => .invalid "\"profile_id\" is required and must be a valid UUID."
    | _ => .invalid "\"title\" is required and must be a non-empty string."

/-- The `content` step of `validateUpdatePayload`: when `body.content` is
absent the `updates` object is returned as built so far; a present `null` or
string is assigned to `updates.content`; anything else fails. -/
def updateContentStep (payload : Json) (updates : List (String × Json)) :
    Validation (List (String × Json)) :=
  match payload.getProp "content" with
  | none => .valid updates
  | some .jnull => .valid (updates ++ [("content", Json.jnull)])
  | some (.jstr c) => .valid (updates ++ [("content", Json.jstr c)])
  | some _ => .invalid "\"content\" must be a string or null when provided."

/-- `validateUpdatePayload` of the per-resource route. The output is the JS
`updates` object, modelled as its field list in assignment order: `title`
first when present (trimmed), then `content` when present (verbatim). An
absent field contributes no entry at all. -/
def validateUpdatePayload (payload : Json) : Validation (List (String × Json)) :=
  if !(jsTruthy payload && jsTypeofObject payload) then
    .invalid "Request body must be a JSON object."
  else if (payload.getProp "title").isNone && (payload.getProp "content").isNone then
    .invalid "At least one field is required: \"title\" or \"content\"."
  else
    match payload.getProp "title" with
    | none => updateContentStep payload []
    | some (.jstr t) =>
      if t.jsTrim.length = 0 then
        .invalid "\"title\" must be a non-empty string when provided."
      else updateContentStep payload [("title", Json.jstr t.jsTrim)]
    | some _ => .invalid "\"title\" must be a non-empty string when provided."

/-! ## The post resource handlers

Each handler is a function of the backend's outcomes, returning the HTTP
response together with the trace of persistence calls it performed, in
order. A `NextResponse.json(x, {status})` is a status plus a JSON body;
`new NextResponse(null, {status: 204})` has no body. -/

/-- An outcome of a backend call: a row/value, or an error with a message. -/
inductive DbResult (α : Type) where
  | ok (val : α)
  | fail (message : String)

/-- One persistence call, with its arguments. -/
inductive DbCall where
  | selectAllPosts
  | insertPost (row : CreatePostPayload)
  | selectPost (id : String)
  | updatePost (id : String) (updates : List (String × Json))
  | deletePost (id : String)

/-- The backend collaborator: each operation's outcome. `Option Json` models
`maybeSingle()` (`none` = no matching row). -/
structure Backend where
  selectAllPosts : DbResult Json
  insertPost : CreatePostPayload → DbResult Json
  selectPost : String → DbResult (Option Json)
  updatePost : String → List (String × Json) → DbResult (Option Json)
  deletePost : String → DbResult (Option Json)

/-- An HTTP response: status and optional JSON body. -/
structure JsResponse where
  status : Nat
  body : Option Json

/-- `NextResponse.json({error: message}, {status})`. -/
def jsonError (status : Nat) (message : String) : JsResponse :=
  { status := status, body := some (.jobj [("error", .jstr message)]) }

/-- `NextResponse.json({data: payload}, {status})`. -/
def jsonData (status : Nat) (payload : Json) : JsResponse :=
  { status := status, body := some (.jobj [("data", payload)]) }

namespace PostsRoute

/-- The list handler (`GET` of the collection route). -/
def GET (db : Backend) : JsResponse × List DbCall :=
  match db.selectAllPosts with
  | .fail m => (jsonError 500 m, [.selectAllPosts])
  | .ok rows => (jsonData 200 rows, [.selectAllPosts])

/-- The create handler (`POST` of the collection route). `reqBody = none`
models a request body `request.json()` failed to parse. -/
def POST (db : Backend) (reqBody : Option Json) : JsResponse × List DbCall :=
  match reqBody with
  | none => (jsonError 400 "Invalid JSON body.", [])
  | some payload =>
    match validateCreatePostPayload payload with
    | .invalid e => (jsonError 400 e, [])
    | .valid d =>
      match db.insertPost d with
      | .fail m => (jsonError 500 m, [.insertPost d])
      | .ok row => (jsonData 201 row, [.insertPost d])

end PostsRoute

namespace PostIdRoute

/-- `invalidIdResponse()` of the per-resource route. -/
def invalidIdResponse : JsResponse :=
  jsonError 400 "Invalid post id. Expected UUID."

/-- The read-one handler (`GET` of the per-resource route). -/
def GET (db : Backend) (id : String) : JsResponse × List DbCall :=
  if !isUuid id then (invalidIdResponse, [])
  else
    match db.selectPost id with
    | .fail m => (jsonError 500 m, [.selectPost id])
    | .ok none => (jsonError 404 "Post not found.", [.selectPost id])
    | .ok (some row) => (jsonData 200 row, [.selectPost id])

/-- The update handler (`PUT` of the per-resource route). -/
def PUT (db : Backend) (id : String) (reqBody : Option Json) : JsResponse × List DbCall :=
  if !isUuid id then (invalidIdResponse, [])
  else
    match reqBody with
    | none => (jsonError 400 "Invalid JSON body.", [])
    | some payload =>
      match validateUpdatePayload payload with
      | .invalid e => (jsonError 400 e, [])
      | .valid updates =>
        match db.updatePost id updates with
        | .fail m => (jsonError 500 m, [.updatePost id updates])
        | .ok none => (jsonError 404 "Post not found.", [.updatePost id updates])
        | .ok (some row) => (jsonData 200 row, [.updatePost id updates])

/-- The delete handler (`DELETE` of the per-resource route). -/
def DELETE (db : Backend) (id : String) : JsResponse × List DbCall :=
  if !isUuid id then (invalidIdResponse, [])
  else
    match db.deletePost id with
    | .fail m => (jsonError 500 m, [.deletePost id])
    | .ok none => (jsonError 404 "Post not found.", [.deletePost id])
    | .ok (some _) => ({ status := 204, body := none }, [.deletePost id])

end PostIdRoute

/-- Modelled from the spec: the backend's `update` by id (section 6, External
Interfaces) persists exactly the provided fields against the matched row —
the supabase client implementing this lives outside the repository. A
provided field overwrites the column of the same name; every other column is
left unchanged. -/
def setField (row : List (String × Json)) (key : String) (v : Json) :
    List (String × Json) :=
  if row.any (fun kv => kv.1 == key) then
    row.map (fun kv => if kv.1 == key then (kv.1, v) else kv)
  else row ++ [(key, v)]

/-- Modelled from the spec: applying a partial-update record to a stored row,
field by field in order. -/
def applyUpdate (row : List (String × Json)) (updates : List (String × Json)) :
    List (String × Json) :=
  updates.foldl (fun r kv => setField r kv.1 kv.2) row

/-! ## Round-trip of the modelled `JSON` codec

`jsonParse (jsonStringify j) = some j` for every number-free value `j` (the
codec of `page.tsx` only ever stringifies strings, booleans, arrays and
objects). The proof follows the usual serializer pattern: an escape-inverse
lemma for string bodies, a head analysis of rendered values, and a mutual
fuel induction over the value grammar. -/

mutual

/-- No `jnum` anywhere inside the value. -/
def noNum : Json → Bool
  | .jnull => true
  | .jbool _ => true
  | .jnum _ => false
  | .jstr _ => true
  | .jarr es => noNumList es
  | .jobj ms => noNumObj ms

/-- `noNum` over an array's elements. -/
def noNumList : List Json → Bool
  | [] => true
  | v :: vs => noNum v && noNumList vs

/-- `noNum` over an object's member values. -/
def noNumObj : List (String × Json) → Bool
  | [] => true
  | (_, v) :: kvs => noNum v && noNumObj kvs

end

theorem hexNibble_hexChar (n : Nat) (h : n < 16) : hexNibble (hexChar n) = some n := by
  interval_cases n <;> rfl

theorem dropWs_cons (c : Char) (r : List Char) (h : isWsChar c = false) :
    dropWs (c :: r) = c :: r := by
  simp [dropWs, List.dropWhile_cons, h]

/-- Reading one escaped character undoes `escChar`. -/
theorem scanString_escChar (c : Char) (tail : List Char) :
    scanString (escChar c ++ tail) = (scanString tail).map (fun p => (c :: p.1, p.2)) := by
  unfold escChar
  by_cases h1 : c = '"'
  · subst h1
    cases hs : scanString tail <;>
      simp [scanString, escCode, hs]
  rw [if_neg h1]
  by_cases h2 : c = '\\'
  · subst h2
    cases hs : scanString tail <;>
      simp [scanString, escCode, hs]
  rw [if_neg h2]
  by_cases h3 : c = Char.ofNat 8
  · subst h3
    cases hs : scanString tail <;>
      simp [scanString, escCode, hs]
  rw [if_neg h3]
  by_cases h4 : c = Char.ofNat 12
  · subst h4
    cases hs : scanString tail <;>
      simp [scanString, escCode, hs]
  rw [if_neg h4]
  by_cases h5 : c = '\n'
  · subst h5
    cases hs : scanString tail <;>
      simp [scanString, escCode, hs]
  rw [if_neg h5]
  by_cases h6 : c = '\r'
  · subst h6
    cases hs : scanString tail <;>
      simp [scanString, escCode, hs]
  rw [if_neg h6]
  by_cases h7 : c = '\t'
  · subst h7
    cases hs : scanString tail <;>
      simp [scanString, escCode, hs]
  rw [if_neg h7]
  by_cases h8 : c.toNat < 32
  · rw [if_pos h8]
    have hz : hexNibble '0' = some 0 := rfl
    have hhi : hexNibble (hexChar (c.toNat / 16)) = some (c.toNat / 16) :=
      hexNibble_hexChar _ (by omega)
    have hlo : hexNibble (hexChar (c.toNat % 16)) = some (c.toNat % 16) :=
      hexNibble_hexChar _ (by omega)
    have hv : c.toNat / 16 * 16 + c.toNat % 16 = c.toNat := by omega
    cases hs : scanString tail <;>
      simp [scanString, hz, hhi, hlo, hs, hv, Char.ofNat_toNat]
  · rw [if_neg h8]
    simp only [List.cons_append, List.nil_append]
    rw [scanString.eq_def]
    split
    · rename_i heq
      exact absurd heq (by simp)
    · rename_i heq
      rw [List.cons_eq_cons] at heq
      exact absurd heq.1 h1
    · rename_i heq
      rw [List.cons_eq_cons] at heq
      exact absurd heq.1 h2
    · rename_i heq
      rw [List.cons_eq_cons] at heq
      exact absurd heq.1 h2
    · rename_i c' rest heq
      rw [List.cons_eq_cons] at heq
      obtain ⟨hc, ht⟩ := heq
      subst hc
      subst ht
      rw [if_neg h8]
      cases hs : scanString tail <;> simp [hs]

/-- Reading a rendered string body recovers it and stops at the closing
quote. -/
theorem scanString_render (cs : List Char) (rest : List Char) :
    scanString (cs.flatMap escChar ++ '"' :: rest) = some (cs, rest) := by
  induction cs with
  | nil => rfl
  | cons c t ih =>
    rw [List.flatMap_cons, List.append_assoc, scanString_escChar, ih]
    rfl

theorem noNumList_cons (v : Json) (vs : List Json) :
    noNumList (v :: vs) = (noNum v && noNumList vs) := rfl

theorem noNumObj_cons (k : String) (v : Json) (kvs : List (String × Json)) :
    noNumObj ((k, v) :: kvs) = (noNum v && noNumObj kvs) := rfl

theorem renderArr_cons (v : Json) (vs : List Json) :
    renderArr (v :: vs) = renderVal v ++ renderArrTail vs := rfl

theorem renderArrTail_cons (v : Json) (vs : List Json) :
    renderArrTail (v :: vs) = ',' :: renderArr (v :: vs) := rfl

theorem renderObj_cons (k : String) (v : Json) (kvs : List (String × Json)) :
    renderObj ((k, v) :: kvs) = renderStr k ++ (':' :: renderVal v) ++ renderObjTail kvs := rfl

theorem renderObjTail_cons (k : String) (v : Json) (kvs : List (String × Json)) :
    renderObjTail ((k, v) :: kvs) = ',' :: renderObj ((k, v) :: kvs) := rfl

/-- A rendered number-free value begins with a character that is neither
whitespace nor a closing bracket. -/
theorem renderVal_head (j : Json) (h : noNum j = true) :
    ∃ c t, renderVal j = c :: t ∧ isWsChar c = false ∧ c ≠ ']' ∧ c ≠ '}' := by
  cases j with
  | jnull => exact ⟨'n', _, rfl, rfl, by decide, by decide⟩
  | jbool b => cases b with
    | true => exact ⟨'t', _, rfl, rfl, by decide, by decide⟩
    | false => exact ⟨'f', _, rfl, rfl, by decide, by decide⟩
  | jnum tok => simp [noNum] at h
  | jstr s => exact ⟨'"', _, rfl, rfl, by decide, by decide⟩
  | jarr es => exact ⟨'[', _, rfl, rfl, by decide, by decide⟩
  | jobj ms => exact ⟨'{', _, rfl, rfl, by decide, by decide⟩

theorem renderVal_length_pos (j : Json) (h : noNum j = true) :
    0 < (renderVal j).length := by
  obtain ⟨c, t, hj, -, -, -⟩ := renderVal_head j h
  simp [hj]

theorem renderStr_length (s : String) :
    (renderStr s).length = (s.data.flatMap escChar).length + 2 := by
  simp [renderStr]

mutual

/-- Parsing a rendered number-free value recovers it, leaving the rest
untouched (given enough fuel). -/
theorem rt_val : ∀ (fuel : Nat) (j : Json) (rest : List Char),
    noNum j = true → (renderVal j).length < fuel →
    parseVal fuel (renderVal j ++ rest) = some (j, rest)
  | 0, j, _, _, hf => absurd hf (Nat.not_lt_zero _)
  | fuel + 1, .jnull, rest, _, _ => rfl
  | fuel + 1, .jbool true, rest, _, _ => rfl
  | fuel + 1, .jbool false, rest, _, _ => rfl
  | fuel + 1, .jnum tok, rest, hn, _ => by simp [noNum] at hn
  | fuel + 1, .jstr s, rest, _, _ => by
    have harg : renderVal (.jstr s) ++ rest
        = '"' :: (s.data.flatMap escChar ++ '"' :: rest) := by
      simp [renderVal, renderStr]
    have hstep : parseVal (fuel + 1) ('"' :: (s.data.flatMap escChar ++ '"' :: rest))
        = (scanString (s.data.flatMap escChar ++ '"' :: rest)).map
            (fun p => (.jstr (String.mk p.1), p.2)) := rfl
    rw [harg, hstep, scanString_render]
    rfl
  | fuel + 1, .jarr [], rest, _, _ => rfl
  | fuel + 1, .jarr (v :: vs), rest, hn, hf => by
    rw [show noNum (.jarr (v :: vs)) = (noNum v && noNumList vs) from rfl,
      Bool.and_eq_true] at hn
    have hlen : (renderArr (v :: vs)).length + 1 < fuel := by
      simp only [renderVal, List.length_cons, List.length_append,
        List.length_singleton] at hf
      omega
    have harg : renderVal (.jarr (v :: vs)) ++ rest
        = '[' :: (renderArr (v :: vs) ++ ']' :: rest) := by
      simp [renderVal]
    have hstep : parseVal (fuel + 1) ('[' :: (renderArr (v :: vs) ++ ']' :: rest))
        = (match dropWs (renderArr (v :: vs) ++ ']' :: rest) with
           | ']' :: r2 => some (.jarr [], r2)
           | r2 => (parseItems fuel r2).map (fun p => (.jarr p.1, p.2))) := rfl
    obtain ⟨c, t, hv, hw, hbr, -⟩ := renderVal_head v hn.1
    have hcons : renderArr (v :: vs) ++ ']' :: rest
        = c :: (t ++ renderArrTail vs ++ ']' :: rest) := by
      simp [renderArr_cons, hv]
    have hrec := rt_items fuel (v :: vs) rest (by simp)
      (by rw [noNumList_cons, Bool.and_eq_true]; exact hn) hlen
    rw [harg, hstep, hcons, dropWs_cons _ _ hw]
    split
    · rename_i heq
      rw [List.cons_eq_cons] at heq
      exact absurd heq.1 hbr
    · rw [← hcons, hrec]
      rfl
  | fuel + 1, .jobj [], rest, _, _ => rfl
  | fuel + 1, .jobj (kv :: kvs), rest, hn, hf => by
    rw [show noNum (.jobj (kv :: kvs)) = noNumObj (kv :: kvs) from rfl] at hn
    have hlen : (renderObj (kv :: kvs)).length + 1 < fuel := by
      simp only [renderVal, List.length_cons, List.length_append,
        List.length_singleton] at hf
      omega
    have harg : renderVal (.jobj (kv :: kvs)) ++ rest
        = '{' :: (renderObj (kv :: kvs) ++ '}' :: rest) := by
      simp [renderVal]
    have hstep : parseVal (fuel + 1) ('{' :: (renderObj (kv :: kvs) ++ '}' :: rest))
        = (match dropWs (renderObj (kv :: kvs) ++ '}' :: rest) with
           | '}' :: r2 => some (.jobj [], r2)
           | r2 => (parseFields fuel r2).map (fun p => (.jobj p.1, p.2))) := rfl
    obtain ⟨k, v⟩ := kv
    have hcons : renderObj ((k, v) :: kvs) ++ '}' :: rest
        = '"' :: ((k.data.flatMap escChar ++ ['"'])
            ++ ((':' :: renderVal v) ++ renderObjTail kvs ++ '}' :: rest)) := by
      simp [renderObj_cons, renderStr]
    have hws0 : dropWs ('"' :: ((k.data.flatMap escChar ++ ['"'])
            ++ ((':' :: renderVal v) ++ renderObjTail kvs ++ '}' :: rest)))
        = '"' :: ((k.data.flatMap escChar ++ ['"'])
            ++ ((':' :: renderVal v) ++ renderObjTail kvs ++ '}' :: rest)) :=
      dropWs_cons _ _ (by decide)
    have hrec := rt_fields fuel ((k, v) :: kvs) rest (by simp) hn hlen
    rw [harg, hstep, hcons, hws0]
    split
    · rename_i heq
      rw [List.cons_eq_cons] at heq
      exact absurd heq.1 (by decide)
    · rw [← hcons, hrec]
      rfl

/-- Parsing a rendered nonempty element list consumes it up to and including
the closing bracket. -/
theorem rt_items : ∀ (fuel : Nat) (vs : List Json) (rest : List Char),
    vs ≠ [] → noNumList vs = true → (renderArr vs).length + 1 < fuel →
    parseItems fuel (renderArr vs ++ ']' :: rest) = some (vs, rest)
  | 0, _, _, _, _, hf => absurd hf (Nat.not_lt_zero _)
  | _ + 1, [], _, hne, _, _ => absurd rfl hne
  | fuel + 1, [v], rest, _, hn, hf => by
    rw [noNumList_cons, Bool.and_eq_true] at hn
    have hfv : (renderVal v).length < fuel := by
      simp only [renderArr_cons, renderArrTail, List.append_nil, List.length_append,
        List.length_nil] at hf
      omega
    have hone : renderArr [v] ++ ']' :: rest = renderVal v ++ ']' :: rest := by
      simp [renderArr_cons, renderArrTail]
    have hv := rt_val fuel v (']' :: rest) hn.1 hfv
    rw [hone]
    simp only [parseItems]
    rw [hv]
    rfl
  | fuel + 1, v :: v2 :: vs, rest, _, hn, hf => by
    rw [noNumList_cons, Bool.and_eq_true] at hn
    have hvpos := renderVal_length_pos v hn.1
    have hsplit : renderArr (v :: v2 :: vs) ++ ']' :: rest
        = renderVal v ++ ',' :: (renderArr (v2 :: vs) ++ ']' :: rest) := by
      rw [renderArr_cons, renderArrTail_cons]
      simp [List.append_assoc]
    have hlens : (renderArr (v :: v2 :: vs)).length
        = (renderVal v).length + 1 + (renderArr (v2 :: vs)).length := by
      rw [renderArr_cons, renderArrTail_cons]
      simp [List.length_append]
      omega
    have hfv : (renderVal v).length < fuel := by omega
    have hfr : (renderArr (v2 :: vs)).length + 1 < fuel := by omega
    have hv := rt_val fuel v (',' :: (renderArr (v2 :: vs) ++ ']' :: rest)) hn.1 hfv
    have hrec := rt_items fuel (v2 :: vs) rest (by simp) hn.2 hfr
    rw [hsplit]
    simp only [parseItems]
    rw [hv]
    show Option.map _ (parseItems fuel (renderArr (v2 :: vs) ++ ']' :: rest))
        = some (v :: v2 :: vs, rest)
    rw [hrec]
    rfl

/-- Parsing a rendered nonempty member list consumes it up to and including
the closing brace. -/
theorem rt_fields : ∀ (fuel : Nat) (kvs : List (String × Json)) (rest : List Char),
    kvs ≠ [] → noNumObj kvs = true → (renderObj kvs).length + 1 < fuel →
    parseFields fuel (renderObj kvs ++ '}' :: rest) = some (kvs, rest)
  | 0, _, _, _, _, hf => absurd hf (Nat.not_lt_zero _)
  | _ + 1, [], _, hne, _, _ => absurd rfl hne
  | fuel + 1, [(k, v)], rest, _, hn, hf => by
    rw [noNumObj_cons, Bool.and_eq_true] at hn
    have hlen1 : (renderObj [(k, v)]).length
        = (renderStr k).length + 1 + (renderVal v).length := by
      rw [renderObj_cons]
      simp only [renderObjTail, List.append_nil, List.length_append, List.length_cons]
      omega
    have hfv : (renderVal v).length < fuel := by
      rw [hlen1] at hf
      omega
    have hone : renderObj [(k, v)] ++ '}' :: rest
        = '"' :: (k.data.flatMap escChar ++ '"'
            :: (':' :: (renderVal v ++ '}' :: rest))) := by
      rw [renderObj_cons]
      simp [renderObjTail, renderStr, List.append_assoc]
    have hws0 : dropWs ('"' :: (k.data.flatMap escChar ++ '"'
            :: (':' :: (renderVal v ++ '}' :: rest))))
        = '"' :: (k.data.flatMap escChar ++ '"'
            :: (':' :: (renderVal v ++ '}' :: rest))) := dropWs_cons _ _ (by decide)
    have hws1 : dropWs (':' :: (renderVal v ++ '}' :: rest))
        = ':' :: (renderVal v ++ '}' :: rest) := dropWs_cons _ _ (by decide)
    have hws2 : dropWs ('}' :: rest) = '}' :: rest := dropWs_cons _ _ (by decide)
    have hscan := scanString_render k.data (':' :: (renderVal v ++ '}' :: rest))
    have hv := rt_val fuel v ('}' :: rest) hn.1 hfv
    rw [hone]
    simp only [parseFields]
    rw [hws0]
    show Option.bind (scanString (k.data.flatMap escChar ++ '"'
        :: (':' :: (renderVal v ++ '}' :: rest)))) _ = some ([(k, v)], rest)
    rw [hscan, Option.some_bind]
    show Option.bind (parseVal fuel (renderVal v ++ '}' :: rest)) _
        = some ([(k, v)], rest)
    rw [hv, Option.some_bind]
    rfl
  | fuel + 1, (k, v) :: (k2, v2) :: kvs, rest, _, hn, hf => by
    rw [noNumObj_cons, Bool.and_eq_true] at hn
    have hvpos := renderVal_length_pos v hn.1
    have hlens : (renderObj ((k, v) :: (k2, v2) :: kvs)).length
        = (renderStr k).length + 1 + (renderVal v).length + 1
            + (renderObj ((k2, v2) :: kvs)).length := by
      rw [renderObj_cons, renderObjTail_cons]
      simp [List.length_append]
      omega
    have hfv : (renderVal v).length < fuel := by
      have := renderStr_length k
      omega
    have hfr : (renderObj ((k2, v2) :: kvs)).length + 1 < fuel := by
      have := renderStr_length k
      omega
    have hsplit : renderObj ((k, v) :: (k2, v2) :: kvs) ++ '}' :: rest
        = '"' :: (k.data.flatMap escChar ++ '"'
            :: (':' :: (renderVal v
              ++ ',' :: (renderObj ((k2, v2) :: kvs) ++ '}' :: rest)))) := by
      rw [renderObj_cons, renderObjTail_cons]
      simp [renderStr, List.append_assoc]
    have hws0 : dropWs ('"' :: (k.data.flatMap escChar ++ '"'
            :: (':' :: (renderVal v
              ++ ',' :: (renderObj ((k2, v2) :: kvs) ++ '}' :: rest)))))
        = '"' :: (k.data.flatMap escChar ++ '"'
            :: (':' :: (renderVal v
              ++ ',' :: (renderObj ((k2, v2) :: kvs) ++ '}' :: rest)))) :=
      dropWs_cons _ _ (by decide)
    have hws1 : dropWs (':' :: (renderVal v
              ++ ',' :: (renderObj ((k2, v2) :: kvs) ++ '}' :: rest)))
        = ':' :: (renderVal v
              ++ ',' :: (renderObj ((k2, v2) :: kvs) ++ '}' :: rest)) :=
      dropWs_cons _ _ (by decide)
    have hws2 : dropWs (',' :: (renderObj ((k2, v2) :: kvs) ++ '}' :: rest))
        = ',' :: (renderObj ((k2, v2) :: kvs) ++ '}' :: rest) :=
      dropWs_cons _ _ (by decide)
    have hscan := scanString_render k.data
      (':' :: (renderVal v ++ ',' :: (renderObj ((k2, v2) :: kvs) ++ '}' :: rest)))
    have hv := rt_val fuel v
      (',' :: (renderObj ((k2, v2) :: kvs) ++ '}' :: rest)) hn.1 hfv
    have hrec := rt_fields fuel ((k2, v2) :: kvs) rest (by simp) hn.2 hfr
    rw [hsplit]
    simp only [parseFields]
    rw [hws0]
    show Option.bind (scanString (k.data.flatMap escChar ++ '"'
        :: (':' :: (renderVal v
          ++ ',' :: (renderObj ((k2, v2) :: kvs) ++ '}' :: rest))))) _
        = some ((k, v) :: (k2, v2) :: kvs, rest)
    rw [hscan, Option.some_bind]
    show Option.bind (parseVal fuel (renderVal v
        ++ ',' :: (renderObj ((k2, v2) :: kvs) ++ '}' :: rest))) _
        = some ((k, v) :: (k2, v2) :: kvs, rest)
    rw [hv, Option.some_bind]
    show Option.map _ (parseFields fuel (renderObj ((k2, v2) :: kvs) ++ '}' :: rest))
        = some ((k, v) :: (k2, v2) :: kvs, rest)
    rw [hrec]
    rfl

end

/-- Round-trip of the modelled JSON codec on number-free values. -/
theorem jsonParse_jsonStringify (j : Json) (h : noNum j = true) :
    jsonParse (jsonStringify j) = some j := by
  have hp := rt_val (2 * (renderVal j).length + 1) j [] h (by omega)
  rw [List.append_nil] at hp
  have hlen : (jsonStringify j).length = (renderVal j).length := rfl
  have hdata : (jsonStringify j).data = renderVal j := rfl
  rw [jsonParse, hlen, hdata, hp]
  rfl

/-! ## Round-trip of the post content codec -/

theorem mediaEntryOk_mediaItemJson (m : MediaItem) :
    mediaEntryOk (mediaItemJson m) = true := by
  obtain ⟨i, k, u⟩ := m
  cases k <;> rfl

theorem mediaEntryItem_mediaItemJson (m : MediaItem) :
    mediaEntryItem (mediaItemJson m) = { m with url := m.url.jsTrim } := by
  obtain ⟨i, k, u⟩ := m
  cases k <;> rfl

theorem noNumList_map_mediaItemJson (L : List MediaItem) :
    noNumList (L.map mediaItemJson) = true := by
  induction L with
  | nil => rfl
  | cons m L ih => simp [noNumList_cons, ih, mediaItemJson, noNum, noNumObj]

theorem noNum_contentJson (x : ParsedContent) : noNum (contentJson x) = true := by
  simp [contentJson, noNum, noNumObj, noNumList_map_mediaItemJson]

theorem decide_length_pos (s : String) : (decide (0 < s.length)) = !(s == "") := by
  obtain ⟨l⟩ := s
  cases l with
  | nil => rfl
  | cons c cs =>
    have h1 : (String.mk (c :: cs) == "") = false := by
      rw [beq_eq_false_iff_ne]
      intro h
      have h2 : c :: cs = [] := congrArg String.data h
      exact absurd h2 (by simp)
    have h2 : decide (0 < (String.mk (c :: cs)).length) = true := by
      rw [decide_eq_true_eq, String.length_mk]
      simp
    rw [h1, h2]
    rfl

theorem serializeContent_ne_empty (x : ParsedContent) : serializeContent x ≠ "" := by
  intro h
  have : (serializeContent x).data = [] := by rw [h]
  rw [show (serializeContent x).data = renderVal (contentJson x) from rfl] at this
  simp [contentJson, renderVal] at this

/-- Decoding an encoded record: the body and published flag come back as
given, and the media list is the input filtered to entries with nonempty
trimmed url, each kept entry with its url trimmed. -/
theorem decode_serialize (x : ParsedContent) :
    parsePostContent (some (serializeContent x))
      = { body := x.body, published := x.published,
          media := (x.media.filter (fun m => !(m.url.jsTrim == ""))).map
            (fun m => { m with url := m.url.jsTrim }) } := by
  have hne : serializeContent x ≠ "" := serializeContent_ne_empty x
  have hp : jsonParse (serializeContent x) = some (contentJson x) :=
    jsonParse_jsonStringify _ (noNum_contentJson x)
  have hb : (contentJson x).getProp "body" = some (.jstr x.body) := rfl
  have hpub : (contentJson x).getProp "published" = some (.jbool x.published) := rfl
  have hm : (contentJson x).getProp "media"
      = some (.jarr ((x.media.filter
          (fun item => item.url.jsTrim.length > 0)).map mediaItemJson)) := rfl
  have hfiltered : ((x.media.filter
        (fun item => item.url.jsTrim.length > 0)).map mediaItemJson).filter mediaEntryOk
      = (x.media.filter (fun item => item.url.jsTrim.length > 0)).map mediaItemJson :=
    List.filter_eq_self.mpr (by
      intro a ha
      obtain ⟨m, -, rfl⟩ := List.mem_map.mp ha
      exact mediaEntryOk_mediaItemJson m)
  have hfcongr : x.media.filter (fun item => item.url.jsTrim.length > 0)
      = x.media.filter (fun m => !(m.url.jsTrim == "")) :=
    List.filter_congr (fun m _ => decide_length_pos m.url.jsTrim)
  simp only [parsePostContent]
  rw [if_neg hne, hp]
  show decodeParsed (contentJson x) = _
  simp only [decodeParsed, hb, hpub, hm]
  rw [hfiltered, List.map_map]
  refine congrArg (fun l => ParsedContent.mk x.body (jsTruthy (.jbool x.published)) l) ?_
  rw [hfcongr]
  exact List.map_congr_left (fun m _ => mediaEntryItem_mediaItemJson m)

/-! ## Spec-side formulations

The following definitions restate sections 4.2–4.4 of the specification in
the spec's own vocabulary; the claim theorems compare them with the
embedded source functions. -/

/-- The text a value holds, if it is text. -/
def asText : Option Json → Option String
  | some (.jstr s) => some s
  | _ => none

/-- Spec 4.2: a media entry is kept only if it is an object with `id`
(text), `kind` equal to exactly `"image"` or `"video"`, and `url` (text);
a kept entry has its `url` trimmed of surrounding whitespace. -/
def specMediaOf (item : Json) : Option MediaItem :=
  match item with
  | .jobj fields =>
    match jsonLookup fields "id" with
    | some (.jstr i) =>
      match jsonLookup fields "kind" with
      | some (.jstr kd) =>
        match jsonLookup fields "url" with
        | some (.jstr u) =>
          if kd = "image" then some ⟨i, .image, u.jsTrim⟩
          else if kd = "video" then some ⟨i, .video, u.jsTrim⟩
          else none
        | _ => none
      | _ => none
    | _ => none
  | _ => none

/-- Spec 4.2, decode of a structured object: optional `body` (text, default
empty), `published` (truthy-coerced, default false), `media` (sequence whose
kept entries are given by `specMediaOf`, order preserved). -/
def specDecodeObj (fields : List (String × Json)) : ParsedContent :=
  { body := (asText (jsonLookup fields "body")).getD ""
  , published := match jsonLookup fields "published" with
      | some v => jsTruthy v
      | none => false
  , media := match jsonLookup fields "media" with
      | some (.jarr items) => items.filterMap specMediaOf
      | _ => [] }

theorem specMediaOf_eq (item : Json) :
    (if mediaEntryOk item then some (mediaEntryItem item) else none) = specMediaOf item := by
  cases item with
  | jnull => rfl
  | jbool b => simp [mediaEntryOk, jsTruthy, jsTypeofObject, specMediaOf]
  | jnum tok => simp [mediaEntryOk, jsTruthy, jsTypeofObject, specMediaOf]
  | jstr s => simp [mediaEntryOk, jsTruthy, jsTypeofObject, specMediaOf]
  | jarr elems => rfl
  | jobj fields =>
    simp only [mediaEntryOk, specMediaOf, mediaEntryItem, Json.getProp, jsTruthy,
      jsTypeofObject, Bool.true_and]
    rcases hid : jsonLookup fields "id" with - | vid
    · simp [hid]
    cases vid <;> simp only [hid] <;> try simp
    rename_i i
    rcases hkd : jsonLookup fields "kind" with - | vkd
    · simp [hkd]
    cases vkd <;> simp only [hkd] <;> try simp
    rename_i kd
    rcases hurl : jsonLookup fields "url" with - | vurl
    · simp [hurl]
    cases vurl <;> simp only [hurl] <;> try simp
    rename_i u
    by_cases h1 : kd = "image"
    · subst h1
      simp
    by_cases h2 : kd = "video"
    · subst h2
      simp
    simp [h1, h2]

theorem filterMedia_eq_filterMap (items : List Json) :
    (items.filter mediaEntryOk).map mediaEntryItem = items.filterMap specMediaOf := by
  induction items with
  | nil => rfl
  | cons a l ih =>
    rw [List.filter_cons, List.filterMap_cons, ← specMediaOf_eq a]
    by_cases h : mediaEntryOk a
    · simp [h, ih]
    · simp [h, ih]

/-- C1: the content-codec decode function is total and never fails: absent
(null/empty) input yields `{body: "", published: false, media: []}`; input
parsing as a structured object yields body (text or default), truthy-coerced
published, and exactly the media entries that are objects with string id,
kind `"image"`/`"video"` and string url, urls trimmed, order preserved; any
input whose structured parse fails yields the fallback
`{body: raw, published: false, media: []}` (in particular `"not json"`). -/
theorem decode_total_and_structured :
    parsePostContent none = { body := "", published := false, media := [] }
    ∧ parsePostContent (some "") = { body := "", published := false, media := [] }
    ∧ (∀ s fields, s ≠ "" → jsonParse s = some (.jobj fields) →
        parsePostContent (some s) = specDecodeObj fields)
    ∧ (∀ s, s ≠ "" → jsonParse s = none →
        parsePostContent (some s) = { body := s, published := false, media := [] })
    ∧ parsePostContent (some "not json")
        = { body := "not json", published := false, media := [] } := by
  refine ⟨rfl, rfl, ?_, ?_, rfl⟩
  · intro s fields hne hp
    simp only [parsePostContent]
    rw [if_neg hne, hp]
    show decodeParsed (.jobj fields) = specDecodeObj fields
    simp only [decodeParsed, specDecodeObj, Json.getProp]
    have hbody : (match jsonLookup fields "body" with
        | some (.jstr b) => b
        | _ => "") = (asText (jsonLookup fields "body")).getD "" := by
      rcases jsonLookup fields "body" with - | v
      · rfl
      cases v <;> rfl
    have hmedia : (match jsonLookup fields "media" with
        | some (.jarr items) => (items.filter mediaEntryOk).map mediaEntryItem
        | _ => ([] : List MediaItem))
        = (match jsonLookup fields "media" with
        | some (.jarr items) => items.filterMap specMediaOf
        | _ => ([] : List MediaItem)) := by
      rcases jsonLookup fields "media" with - | v
      · rfl
      cases v <;> simp [filterMedia_eq_filterMap]
    rw [hbody, hmedia]
  · intro s hne hp
    simp only [parsePostContent]
    rw [if_neg hne, hp]

/-- Witness for C1 at concrete inputs: a structured object and a parse
failure. -/
theorem decode_total_and_structured_witness :
    parsePostContent (some "\x7b\"published\":true\x7d")
      = specDecodeObj [("published", .jbool true)]
    ∧ parsePostContent (some "oops")
      = { body := "oops", published := false, media := [] } :=
  ⟨decode_total_and_structured.2.2.1 "\x7b\"published\":true\x7d"
      [("published", .jbool true)] (by decide) rfl,
    decode_total_and_structured.2.2.2.1 "oops" (by decide) rfl⟩

/-- C10: raw content that parses as valid JSON but not as an object — a
number, boolean or JSON string literal — decodes to
`{body: "", published: false, media: []}`, discarding the raw text rather
than taking the plain-text fallback; the fallback is taken exactly when
parsing fails or the parsed value is `null` (whose member access throws and
is caught). -/
theorem decode_nonobject_discards_raw :
    (∀ s tok, s ≠ "" → jsonParse s = some (.jnum tok) →
        parsePostContent (some s) = { body := "", published := false, media := [] }
        ∧ parsePostContent (some s) ≠ { body := s, published := false, media := [] })
    ∧ (∀ s b, s ≠ "" → jsonParse s = some (.jbool b) →
        parsePostContent (some s) = { body := "", published := false, media := [] }
        ∧ parsePostContent (some s) ≠ { body := s, published := false, media := [] })
    ∧ (∀ s v, s ≠ "" → jsonParse s = some (.jstr v) →
        parsePostContent (some s) = { body := "", published := false, media := [] }
        ∧ parsePostContent (some s) ≠ { body := s, published := false, media := [] })
    ∧ (∀ s, s ≠ "" → (jsonParse s = none ∨ jsonParse s = some .jnull) →
        parsePostContent (some s) = { body := s, published := false, media := [] })
    ∧ (∀ s v, s ≠ "" → jsonParse s = some v → v ≠ .jnull →
        parsePostContent (some s) = decodeParsed v) := by
  have hgen : ∀ s v, s ≠ "" → jsonParse s = some v → v ≠ .jnull →
      parsePostContent (some s) = decodeParsed v := by
    intro s v hne hp hv
    simp only [parsePostContent]
    rw [if_neg hne, hp]
    cases v with
    | jnull => exact absurd rfl hv
    | jbool b => rfl
    | jnum tok => rfl
    | jstr w => rfl
    | jarr elems => rfl
    | jobj fields => rfl
  have hner : ∀ s, s ≠ "" →
      ({ body := "", published := false, media := [] } : ParsedContent)
        ≠ { body := s, published := false, media := [] } := by
    intro s hne h
    exact hne (congrArg ParsedContent.body h).symm
  refine ⟨?_, ?_, ?_, ?_, hgen⟩
  · intro s tok hne hp
    have h := hgen s _ hne hp (by intro h; cases h)
    exact ⟨h, h ▸ hner s hne⟩
  · intro s b hne hp
    have h := hgen s _ hne hp (by intro h; cases h)
    exact ⟨h, h ▸ hner s hne⟩
  · intro s v hne hp
    have h := hgen s _ hne hp (by intro h; cases h)
    exact ⟨h, h ▸ hner s hne⟩
  · intro s hne hp
    simp only [parsePostContent]
    rcases hp with hp | hp
    · rw [if_neg hne, hp]
    · rw [if_neg hne, hp]

/-- Witness for C10 at concrete inputs: a number, a boolean, a string
literal, `"null"` and a non-JSON text. -/
theorem decode_nonobject_discards_raw_witness :
    (parsePostContent (some "5") = { body := "", published := false, media := [] }
      ∧ parsePostContent (some "5") ≠ { body := "5", published := false, media := [] })
    ∧ (parsePostContent (some "true") = { body := "", published := false, media := [] })
    ∧ (parsePostContent (some "\"hi\"") = { body := "", published := false, media := [] })
    ∧ parsePostContent (some "null") = { body := "null", published := false, media := [] } :=
  ⟨decode_nonobject_discards_raw.1 "5" "5" (by decide) rfl,
    (decode_nonobject_discards_raw.2.1 "true" true (by decide) rfl).1,
    (decode_nonobject_discards_raw.2.2.1 "\"hi\"" "hi" (by decide) rfl).1,
    decode_nonobject_discards_raw.2.2.2.1 "null" (by decide) (Or.inr rfl)⟩

/-- C2 (amended): for every record whose media entries have non-empty ids,
`decode(encode(x))` equals `x` after removing the media entries whose
trimmed url is empty AND trimming each remaining entry's url; order and the
other fields are preserved. (The unamended claim — remaining entries kept
with all fields as-is — fails because decode trims the kept urls; see the
counterexample.) -/
theorem decode_encode_roundtrip_trimmed : ∀ x : ParsedContent,
    (∀ m ∈ x.media, m.id ≠ "") →
    parsePostContent (some (serializeContent x))
      = { body := x.body, published := x.published,
          media := (x.media.filter (fun m => !(m.url.jsTrim == ""))).map
            (fun m => { m with url := m.url.jsTrim }) } :=
  fun x _ => decode_serialize x

/-- Witness for C2 at a concrete record with one kept and one dropped
entry. -/
theorem decode_encode_roundtrip_trimmed_witness :
    parsePostContent (some (serializeContent
        { body := "b", published := true,
          media := [⟨"a", .image, " u "⟩, ⟨"c", .video, " "⟩] }))
      = { body := "b", published := true, media := [⟨"a", .image, "u"⟩] } :=
  (decode_encode_roundtrip_trimmed
    { body := "b", published := true,
      media := [⟨"a", .image, " u "⟩, ⟨"c", .video, " "⟩] }
    (by decide)).trans (by decide)

/-- Counterexample to C2 as stated: for the record with the single media
entry `{id: "a", kind: image, url: " u "}` (valid kind, non-empty id, and no
entry with empty trimmed url, so the claim predicts `decode(encode(x)) = x`),
decoding the encoding does not return the record unchanged — the kept url
comes back trimmed to `"u"`. -/
theorem decode_encode_roundtrip_cex :
    ¬ (parsePostContent (some (serializeContent
        { body := "", published := false, media := [⟨"a", .image, " u "⟩] }))
      = { body := "", published := false, media := [⟨"a", .image, " u "⟩] }) := by
  decide

/-- Spec 4.2 encode: the input media sequence filtered to drop entries whose
trimmed `url` is empty. -/
def specKeptMedia (media : List MediaItem) : List MediaItem :=
  media.filter (fun m => !(m.url.jsTrim == ""))

/-- C9: `encode` serializes exactly the three fields `body` (as given),
`published` (as given), and `media` equal to the input sequence with the
empty-trimmed-url entries removed — order preserved (the kept entries form a
sublist) and each kept entry's fields, including its untrimmed `url`,
preserved as-is. -/
theorem encode_exactly_three_fields : ∀ x : ParsedContent,
    serializeContent x = jsonStringify (.jobj
      [ ("body", .jstr x.body)
      , ("published", .jbool x.published)
      , ("media", .jarr ((specKeptMedia x.media).map mediaItemJson)) ])
    ∧ List.Sublist (specKeptMedia x.media) x.media
    ∧ (∀ m ∈ x.media, (m ∈ specKeptMedia x.media ↔ ¬(m.url.jsTrim = ""))) := by
  intro x
  have hf : x.media.filter (fun item => item.url.jsTrim.length > 0) = specKeptMedia x.media :=
    List.filter_congr (fun m _ => decide_length_pos m.url.jsTrim)
  refine ⟨?_, ?_, ?_⟩
  · simp only [serializeContent, contentJson, hf]
  · exact List.filter_sublist x.media
  · intro m hm
    simp [specKeptMedia, List.mem_filter, hm]

/-- Witness for C9 at a concrete record: the second entry (whitespace-only
url) is dropped from the serialized media, the first is kept as-is. -/
theorem encode_exactly_three_fields_witness :
    serializeContent
        { body := "b", published := true,
          media := [⟨"a", .image, " u "⟩, ⟨"c", .video, " "⟩] }
      = jsonStringify (.jobj
        [ ("body", .jstr "b")
        , ("published", .jbool true)
        , ("media", .jarr [mediaItemJson ⟨"a", .image, " u "⟩]) ])
    ∧ (⟨"a", .image, " u "⟩ ∈ specKeptMedia [⟨"a", MediaKind.image, " u "⟩, ⟨"c", .video, " "⟩]) := by
  have h := encode_exactly_three_fields
    { body := "b", published := true,
      media := [⟨"a", .image, " u "⟩, ⟨"c", .video, " "⟩] }
  refine ⟨h.1.trans (by decide), ?_⟩
  exact (h.2.2 ⟨"a", .image, " u "⟩ (by decide)).mpr (by decide)

/-- Spec 4.3 rule 1: a structured object (not null, not a primitive) — in
JavaScript terms an object or an array. -/
def isStructuredObject (j : Json) : Bool :=
  match j with
  | .jobj _ => true
  | .jarr _ => true
  | _ => false

theorem length_eq_zero_iff (s : String) : s.length = 0 ↔ s = "" := by
  obtain ⟨l⟩ := s
  cases l with
  | nil => exact ⟨fun _ => rfl, fun _ => rfl⟩
  | cons c cs =>
    constructor
    · intro h
      rw [String.length_mk] at h
      simp at h
    · intro h
      exact absurd (congrArg String.data h) (by simp)

/-- Spec 4.3: the create-payload rules in order, short-circuiting on the
first failure — structured object; `title` text and non-empty after trim;
`profile_id` text passing the UUID validator; `content` absent, null or
text — and on success the normalized payload with trimmed `title`,
`profile_id` as given, `content` defaulted to null when absent. -/
def createPayloadSpec (payload : Json) : Validation CreatePostPayload :=
  if isStructuredObject payload = false then
    .invalid "Request body must be a JSON object."
  else
    match asText (payload.getProp "title") with
    | none => .invalid "\"title\" is required and must be a non-empty string."
    | some title =>
      if title.jsTrim = "" then
        .invalid "\"title\" is required and must be a non-empty string."
      else
        match asText (payload.getProp "profile_id") with
        | none => .invalid "\"profile_id\" is required and must be a valid UUID."
        | some pid =>
          if isUuid pid = false then
            .invalid "\"profile_id\" is required and must be a valid UUID."
          else
            match payload.getProp "content" with
            | none => .valid { title := title.jsTrim, content := none, profile_id := pid }
            | some .jnull => .valid { title := title.jsTrim, content := none, profile_id := pid }
            | some (.jstr c) => .valid { title := title.jsTrim, content := some c, profile_id := pid }
            | some _ => .invalid "\"content\" must be a string or null when provided."

/-- C3: the create-payload validator checks its rules in order with
short-circuit on first failure and normalizes its output exactly as the
spec states (it agrees with `createPayloadSpec` on every payload); in
particular it rejects `{}` with the missing-title message, rejects a valid
title with a non-UUID `profile_id` with the invalid-profile_id message, and
accepts `{title: " T ", profile_id: <valid uuid>}` producing title `"T"`
and content null. -/
theorem create_validator_spec :
    (∀ p, validateCreatePostPayload p = createPayloadSpec p)
    ∧ validateCreatePostPayload (.jobj [])
        = .invalid "\"title\" is required and must be a non-empty string."
    ∧ validateCreatePostPayload
        (.jobj [("title", .jstr "T"), ("profile_id", .jstr "not-a-uuid")])
        = .invalid "\"profile_id\" is required and must be a valid UUID."
    ∧ validateCreatePostPayload (.jobj [("title", .jstr " T "),
        ("profile_id", .jstr "123e4567-e89b-12d3-a456-426614174000")])
        = .valid
          { title := "T", content := none,
            profile_id := "123e4567-e89b-12d3-a456-426614174000" } := by
  refine ⟨?_, rfl, rfl, rfl⟩
  intro p
  cases p with
  | jnull => rfl
  | jbool b =>
    simp [validateCreatePostPayload, createPayloadSpec, jsTruthy, jsTypeofObject,
      isStructuredObject]
  | jnum tok =>
    simp [validateCreatePostPayload, createPayloadSpec, jsTruthy, jsTypeofObject,
      isStructuredObject]
  | jstr s =>
    simp [validateCreatePostPayload, createPayloadSpec, jsTruthy, jsTypeofObject,
      isStructuredObject]
  | jarr elems => rfl
  | jobj fields =>
    simp only [validateCreatePostPayload, createPayloadSpec, jsTruthy, jsTypeofObject,
      isStructuredObject, Json.getProp, Bool.and_self, Bool.not_true, Bool.false_eq_true,
      if_false]
    rcases ht : jsonLookup fields "title" with - | vt
    · simp [asText]
    cases vt <;> try simp [asText]
    rename_i t
    by_cases htrim : t.jsTrim = ""
    · simp [asText, htrim, (length_eq_zero_iff t.jsTrim).mpr htrim]
    · have hlen : ¬(t.jsTrim.length = 0) := fun h => htrim ((length_eq_zero_iff t.jsTrim).mp h)
      simp only [asText, if_neg hlen, if_neg htrim]
      rcases hp : jsonLookup fields "profile_id" with - | vp
      · simp [asText]
      cases vp <;> simp [asText]

theorem updateContentStep_valid_cases (p : Json) (base u : List (String × Json))
    (h : updateContentStep p base = .valid u) :
    (p.getProp "content" = none ∧ u = base)
    ∨ (p.getProp "content" = some .jnull ∧ u = base ++ [("content", Json.jnull)])
    ∨ (∃ c, p.getProp "content" = some (.jstr c) ∧ u = base ++ [("content", Json.jstr c)]) := by
  unfold updateContentStep at h
  split at h
  · rename_i hc
    cases h
    exact Or.inl ⟨hc, rfl⟩
  · rename_i hc
    cases h
    exact Or.inr (Or.inl ⟨hc, rfl⟩)
  · rename_i c hc
    cases h
    exact Or.inr (Or.inr ⟨c, hc, rfl⟩)
  · simp at h

theorem validateUpdatePayload_valid_cases (p : Json) (u : List (String × Json))
    (h : validateUpdatePayload p = .valid u) :
    (p.getProp "title" = none ∧ updateContentStep p [] = .valid u)
    ∨ (∃ t, p.getProp "title" = some (.jstr t) ∧ t.jsTrim ≠ ""
        ∧ updateContentStep p [("title", Json.jstr t.jsTrim)] = .valid u) := by
  unfold validateUpdatePayload at h
  split at h
  · simp at h
  · split at h
    · simp at h
    · split at h
      · rename_i ht
        exact Or.inl ⟨ht, h⟩
      · rename_i t ht
        split at h
        · simp at h
        · rename_i hlen
          exact Or.inr ⟨t, ht, fun he => hlen ((length_eq_zero_iff _).mpr he), h⟩
      · simp at h

/-- Counterexample to C4 as stated: the validator's actual message for a
structured body with both fields absent is
`At least one field is required: "title" or "content".`, not the claim's
`At least one field is required.`. -/
theorem update_required_message_cex :
    ¬ (validateUpdatePayload (.jobj []) = .invalid "At least one field is required.") := by
  intro h
  have he : validateUpdatePayload (.jobj [])
      = .invalid "At least one field is required: \"title\" or \"content\"." := rfl
  rw [he] at h
  simp at h

/-- C4 (amended): the update-payload validator rejects any structured body
in which both `title` and `content` are absent with the message
`At least one field is required: "title" or "content".`; a present title
must be non-empty text after trim (else a field-specific message) and is
included trimmed; a present content must be text or explicitly null and is
included verbatim; an absent field contributes no entry to the output
record, so "not provided" is distinguished from "set to null". -/
theorem update_validator_partial_fields :
    (∀ fields, jsonLookup fields "title" = none → jsonLookup fields "content" = none →
        validateUpdatePayload (.jobj fields)
          = .invalid "At least one field is required: \"title\" or \"content\".")
    ∧ (∀ p t, p.getProp "title" = some (.jstr t) → t.jsTrim = "" →
        validateUpdatePayload p
          = .invalid "\"title\" must be a non-empty string when provided.")
    ∧ (∀ p u, validateUpdatePayload p = .valid u →
        (p.getProp "title" = none → ∀ w, ("title", w) ∉ u)
        ∧ (∀ t, p.getProp "title" = some (.jstr t) → ("title", Json.jstr t.jsTrim) ∈ u)
        ∧ (p.getProp "content" = none → ∀ w, ("content", w) ∉ u)
        ∧ (p.getProp "content" = some .jnull → ("content", Json.jnull) ∈ u)
        ∧ (∀ c, p.getProp "content" = some (.jstr c) → ("content", Json.jstr c) ∈ u)) := by
  refine ⟨?_, ?_, ?_⟩
  · intro fields h1 h2
    simp [validateUpdatePayload, Json.getProp, jsTruthy, jsTypeofObject, h1, h2]
  · intro p t ht htrim
    cases p with
    | jobj fields =>
      have hlen : t.jsTrim.length = 0 := (length_eq_zero_iff _).mpr htrim
      simp only [Json.getProp] at ht
      simp [validateUpdatePayload, Json.getProp, jsTruthy, jsTypeofObject, ht, hlen]
    | jnull => simp [Json.getProp] at ht
    | jbool b => simp [Json.getProp] at ht
    | jnum tok => simp [Json.getProp] at ht
    | jstr s => simp [Json.getProp] at ht
    | jarr elems => simp [Json.getProp] at ht
  · intro p u h
    rcases validateUpdatePayload_valid_cases p u h with ⟨ht, hstep⟩ | ⟨t, ht, -, hstep⟩ <;>
      rcases updateContentStep_valid_cases p _ u hstep with ⟨hc, rfl⟩ | ⟨hc, rfl⟩ | ⟨c, hc, rfl⟩ <;>
      refine ⟨?_, ?_, ?_, ?_, ?_⟩ <;>
      simp_all

/-- Witness for C4: `{}` is rejected with the full message; `{content: null}`
alone is accepted and its output contains the explicit null content entry. -/
theorem update_validator_partial_fields_witness :
    validateUpdatePayload (.jobj [])
      = .invalid "At least one field is required: \"title\" or \"content\"."
    ∧ ("content", Json.jnull) ∈ [("content", Json.jnull)] :=
  ⟨update_validator_partial_fields.1 [] rfl rfl,
    (update_validator_partial_fields.2.2 (.jobj [("content", Json.jnull)])
      [("content", Json.jnull)] rfl).2.2.2.1 rfl⟩

/-! ## C5 — the update path never touches `profile_id` -/

theorem validateUpdatePayload_keys (p : Json) (u : List (String × Json))
    (h : validateUpdatePayload p = .valid u) :
    ∀ kv ∈ u, kv.1 = "title" ∨ kv.1 = "content" := by
  rcases validateUpdatePayload_valid_cases p u h with ⟨-, hstep⟩ | ⟨t, -, -, hstep⟩ <;>
    rcases updateContentStep_valid_cases p _ u hstep with ⟨-, rfl⟩ | ⟨-, rfl⟩ | ⟨c, -, rfl⟩ <;>
    intro kv hkv <;> simp_all <;> rcases hkv with h1 | h1 <;> simp [h1]

theorem jsonLookup_setField_ne (row : List (String × Json)) (key : String) (v : Json)
    (other : String) (h : key ≠ other) :
    jsonLookup (setField row key v) other = jsonLookup row other := by
  unfold setField
  split
  · unfold jsonLookup
    rw [← List.map_reverse, List.find?_map]
    have hpf : ((fun kv => kv.1 == other) ∘
          (fun (kv : String × Json) => if kv.1 == key then (kv.1, v) else kv))
        = fun (kv : String × Json) => kv.1 == other := by
      funext kv
      by_cases hk : kv.1 == key <;> simp [Function.comp, hk]
    rw [hpf]
    cases hf : List.find? (fun kv => kv.1 == other) row.reverse with
    | none => rfl
    | some kv =>
      have hp := List.find?_some hf
      rw [beq_iff_eq] at hp
      have h1 : (kv.1 == key) = false := by
        rw [beq_eq_false_iff_ne]
        intro hk
        exact h (hk ▸ hp)
      have h2 : kv.1 ≠ key := beq_eq_false_iff_ne.mp h1
      simp [h1, h2]
  · unfold jsonLookup
    rw [List.reverse_append]
    have h1 : (((key, v)).1 == other) = false := by
      rw [beq_eq_false_iff_ne]
      exact h
    simp [List.find?_cons, h1]

theorem jsonLookup_applyUpdate_ne (updates row : List (String × Json)) (other : String)
    (h : ∀ kv ∈ updates, kv.1 ≠ other) :
    jsonLookup (applyUpdate row updates) other = jsonLookup row other := by
  induction updates generalizing row with
  | nil => rfl
  | cons kv rest ih =>
    rw [show applyUpdate row (kv :: rest) = applyUpdate (setField row kv.1 kv.2) rest from rfl]
    rw [ih (setField row kv.1 kv.2) (fun kv' h' => h kv' (List.mem_cons_of_mem _ h'))]
    exact jsonLookup_setField_ne row kv.1 kv.2 other (h kv (List.mem_cons_self _ _))

/-- C5: for every request body, every persistence call the update handler
makes is an update against the path id whose record has at most the keys
`title` and `content`; applying such a record to any stored row leaves
`profile_id` (and every other column) unchanged. -/
theorem update_never_touches_profile_id :
    ∀ (db : Backend) (id : String) (reqBody : Option Json),
      ∀ c ∈ (PostIdRoute.PUT db id reqBody).2,
        ∃ updates, c = DbCall.updatePost id updates
          ∧ (∀ kv ∈ updates, kv.1 = "title" ∨ kv.1 = "content")
          ∧ ∀ row, jsonLookup (applyUpdate row updates) "profile_id"
              = jsonLookup row "profile_id" := by
  intro db id reqBody c hc
  unfold PostIdRoute.PUT at hc
  split at hc
  · simp at hc
  · split at hc
    · simp at hc
    · rename_i payload
      split at hc
      · simp at hc
      · rename_i updates hval
        have hkeys := validateUpdatePayload_keys payload updates hval
        have hne : ∀ kv ∈ updates, kv.1 ≠ "profile_id" := by
          intro kv hkv
          rcases hkeys kv hkv with h1 | h1 <;> rw [h1] <;> decide
        refine ⟨updates, ?_, hkeys, fun row => jsonLookup_applyUpdate_ne updates row _ hne⟩
        split at hc <;> simpa using hc

/-- A backend whose every operation succeeds trivially (for witnesses). -/
def okBackend : Backend :=
  { selectAllPosts := .ok (.jarr [])
  , insertPost := fun _ => .ok .jnull
  , selectPost := fun _ => .ok none
  , updatePost := fun _ _ => .ok (some .jnull)
  , deletePost := fun _ => .ok none }

/-- A backend whose every operation fails with a fixed message (for
witnesses). -/
def failBackend (msg : String) : Backend :=
  { selectAllPosts := .fail msg
  , insertPost := fun _ => .fail msg
  , selectPost := fun _ => .fail msg
  , updatePost := fun _ _ => .fail msg
  , deletePost := fun _ => .fail msg }

/-- Witness for C5: a concrete update request whose single persistence call
carries only the `title` field, leaving `profile_id` untouched on any row. -/
theorem update_never_touches_profile_id_witness :
    ∃ updates,
      DbCall.updatePost "123e4567-e89b-12d3-a456-426614174000" [("title", Json.jstr "x")]
        = DbCall.updatePost "123e4567-e89b-12d3-a456-426614174000" updates
      ∧ (∀ kv ∈ updates, kv.1 = "title" ∨ kv.1 = "content")
      ∧ ∀ row, jsonLookup (applyUpdate row updates) "profile_id"
          = jsonLookup row "profile_id" :=
  update_never_touches_profile_id okBackend "123e4567-e89b-12d3-a456-426614174000"
    (some (.jobj [("title", .jstr "x")]))
    (DbCall.updatePost "123e4567-e89b-12d3-a456-426614174000" [("title", Json.jstr "x")])
    (by
      rw [show (PostIdRoute.PUT okBackend "123e4567-e89b-12d3-a456-426614174000"
          (some (.jobj [("title", .jstr "x")]))).2
        = [DbCall.updatePost "123e4567-e89b-12d3-a456-426614174000"
            [("title", Json.jstr "x")]] from rfl]
      exact List.mem_singleton.mpr rfl)

/-- C6: for every path identifier failing the UUID validator, the read-one,
update and delete handlers return the 400 response with message
`Invalid post id. Expected UUID.` and an empty persistence trace, for every
backend and (for update) every request body — so the rejection happens
before any body handling, payload validation or persistence call. -/
theorem invalid_id_rejected_before_work :
    ∀ id, isUuid id = false → ∀ (db : Backend) (reqBody : Option Json),
      PostIdRoute.GET db id = (PostIdRoute.invalidIdResponse, [])
      ∧ PostIdRoute.PUT db id reqBody = (PostIdRoute.invalidIdResponse, [])
      ∧ PostIdRoute.DELETE db id = (PostIdRoute.invalidIdResponse, [])
      ∧ PostIdRoute.invalidIdResponse
        = { status := 400,
            body := some (.jobj [("error", .jstr "Invalid post id. Expected UUID.")]) } := by
  intro id h db reqBody
  refine ⟨?_, ?_, ?_, rfl⟩ <;>
    simp [PostIdRoute.GET, PostIdRoute.PUT, PostIdRoute.DELETE, h]

/-- Witness for C6 at the identifier `not-a-uuid`. -/
theorem invalid_id_rejected_before_work_witness :
    PostIdRoute.GET okBackend "not-a-uuid" = (PostIdRoute.invalidIdResponse, [])
    ∧ PostIdRoute.PUT okBackend "not-a-uuid" none = (PostIdRoute.invalidIdResponse, [])
    ∧ PostIdRoute.DELETE okBackend "not-a-uuid" = (PostIdRoute.invalidIdResponse, [])
    ∧ PostIdRoute.invalidIdResponse
      = { status := 400,
          body := some (.jobj [("error", .jstr "Invalid post id. Expected UUID.")]) } :=
  invalid_id_rejected_before_work "not-a-uuid" rfl okBackend none

/-- C7: whenever the backend call of one of the five handlers fails, the
handler returns status 500 with the backend's error message verbatim as the
response's error text, and its persistence trace is exactly that one call —
no retry, no further persistence. -/
theorem backend_failure_surfaced_verbatim :
    (∀ (db : Backend) m, db.selectAllPosts = .fail m →
        PostsRoute.GET db = (jsonError 500 m, [DbCall.selectAllPosts]))
    ∧ (∀ (db : Backend) payload d m, validateCreatePostPayload payload = .valid d →
        db.insertPost d = .fail m →
        PostsRoute.POST db (some payload) = (jsonError 500 m, [DbCall.insertPost d]))
    ∧ (∀ (db : Backend) id m, isUuid id = true → db.selectPost id = .fail m →
        PostIdRoute.GET db id = (jsonError 500 m, [DbCall.selectPost id]))
    ∧ (∀ (db : Backend) id payload u m, isUuid id = true →
        validateUpdatePayload payload = .valid u → db.updatePost id u = .fail m →
        PostIdRoute.PUT db id (some payload) = (jsonError 500 m, [DbCall.updatePost id u]))
    ∧ (∀ (db : Backend) id m, isUuid id = true → db.deletePost id = .fail m →
        PostIdRoute.DELETE db id = (jsonError 500 m, [DbCall.deletePost id])) := by
  refine ⟨?_, ?_, ?_, ?_, ?_⟩
  · intro db m h
    simp [PostsRoute.GET, h]
  · intro db payload d m hv h
    simp [PostsRoute.POST, hv, h]
  · intro db id m hid h
    simp [PostIdRoute.GET, hid, h]
  · intro db id payload u m hid hv h
    simp [PostIdRoute.PUT, hid, hv, h]
  · intro db id m hid h
    simp [PostIdRoute.DELETE, hid, h]

/-- Witness for C7: a backend failing with message `boom`, each handler at a
concrete valid input. -/
theorem backend_failure_surfaced_verbatim_witness :
    PostsRoute.GET (failBackend "boom") = (jsonError 500 "boom", [DbCall.selectAllPosts])
    ∧ PostsRoute.POST (failBackend "boom") (some (.jobj [("title", .jstr "T"),
        ("profile_id", .jstr "123e4567-e89b-12d3-a456-426614174000")]))
      = (jsonError 500 "boom", [DbCall.insertPost
          { title := "T", content := none,
            profile_id := "123e4567-e89b-12d3-a456-426614174000" }])
    ∧ PostIdRoute.GET (failBackend "boom") "123e4567-e89b-12d3-a456-426614174000"
      = (jsonError 500 "boom", [DbCall.selectPost "123e4567-e89b-12d3-a456-426614174000"])
    ∧ PostIdRoute.PUT (failBackend "boom") "123e4567-e89b-12d3-a456-426614174000"
        (some (.jobj [("title", .jstr "x")]))
      = (jsonError 500 "boom", [DbCall.updatePost "123e4567-e89b-12d3-a456-426614174000"
          [("title", Json.jstr "x")]])
    ∧ PostIdRoute.DELETE (failBackend "boom") "123e4567-e89b-12d3-a456-426614174000"
      = (jsonError 500 "boom", [DbCall.deletePost "123e4567-e89b-12d3-a456-426614174000"]) :=
  ⟨backend_failure_surfaced_verbatim.1 (failBackend "boom") "boom" rfl,
    backend_failure_surfaced_verbatim.2.1 (failBackend "boom") _ _ "boom" rfl rfl,
    backend_failure_surfaced_verbatim.2.2.1 (failBackend "boom") _ "boom" rfl rfl,
    backend_failure_surfaced_verbatim.2.2.2.1 (failBackend "boom") _ _
      [("title", Json.jstr "x")] "boom" rfl rfl rfl,
    backend_failure_surfaced_verbatim.2.2.2.2 (failBackend "boom") _ "boom" rfl rfl⟩

/-! ## C8 — the UUID validator against the canonical pattern -/

theorem matchRun_eq_some (p : Char → Bool) (n : Nat) :
    ∀ (cs r : List Char), matchRun p n cs = some r ↔
      ∃ pre, cs = pre ++ r ∧ pre.length = n ∧ ∀ c ∈ pre, p c = true := by
  induction n with
  | zero =>
    intro cs r
    simp only [matchRun]
    constructor
    · intro h
      injection h with h
      exact ⟨[], by simp [h], rfl, by simp⟩
    · rintro ⟨pre, hcs, hlen, -⟩
      rw [List.length_eq_zero] at hlen
      subst hlen
      simpa using congrArg some hcs
  | succ n ih =>
    intro cs r
    cases cs with
    | nil =>
      simp only [matchRun]
      constructor
      · intro h
        exact absurd h (by simp)
      · rintro ⟨pre, hcs, hlen, -⟩
        cases pre with
        | nil => simp at hlen
        | cons d pre' => simp at hcs
    | cons c cs' =>
      by_cases hp : p c = true
      · simp only [matchRun, hp, if_true]
        rw [ih cs' r]
        constructor
        · rintro ⟨pre, rfl, hlen, hall⟩
          refine ⟨c :: pre, rfl, by simp [hlen], ?_⟩
          intro d hd
          rcases List.mem_cons.mp hd with rfl | hd
          · exact hp
          · exact hall d hd
        · rintro ⟨pre, hcs, hlen, hall⟩
          cases pre with
          | nil => simp at hlen
          | cons d pre' =>
            rw [List.cons_append, List.cons_eq_cons] at hcs
            obtain ⟨rfl, rfl⟩ := hcs
            exact ⟨pre', rfl, by simpa using hlen,
              fun d hd => hall d (List.mem_cons_of_mem _ hd)⟩
      · have hp' : p c = false := by
          revert hp
          cases p c <;> simp
        simp only [matchRun, hp', if_false]
        constructor
        · intro h
          exact absurd h (by simp)
        · rintro ⟨pre, hcs, hlen, hall⟩
          cases pre with
          | nil => simp at hlen
          | cons d pre' =>
            rw [List.cons_append, List.cons_eq_cons] at hcs
            obtain ⟨rfl, -⟩ := hcs
            exact absurd (hall c (by simp)) (by simp [hp'])

theorem matchLit_eq_some (l : Char) (cs r : List Char) :
    matchLit l cs = some r ↔ cs = l :: r := by
  cases cs with
  | nil => simp [matchLit]
  | cons c cs' =>
    simp only [matchLit]
    by_cases h : c = l
    · subst h
      simp
    · simp [h]

theorem matchLit_self (l : Char) (r : List Char) : matchLit l (l :: r) = some r := by
  simp [matchLit]

theorem isVersionNibble_hex (c : Char) (h : isVersionNibble c = true) :
    isHexDigit c = true := by
  simp only [isVersionNibble, Bool.and_eq_true, decide_eq_true_eq] at h
  simp only [isHexDigit, Bool.or_eq_true, Bool.and_eq_true, decide_eq_true_eq]
  exact Or.inl (Or.inl ⟨le_trans (by decide) h.1, le_trans h.2 (by decide)⟩)

theorem isVariantNibble_hex (c : Char) (h : isVariantNibble c = true) :
    isHexDigit c = true := by
  simp only [isVariantNibble, Bool.or_eq_true, decide_eq_true_eq] at h
  rcases h with ((((h | h) | h) | h) | h) | h <;> subst h <;> decide

/-- The canonical 36-character hyphenated UUID shape of the spec: five
hexadecimal groups of lengths 8-4-4-4-12 separated by `-`, the version
nibble (first character of the third group) in 1–5, the variant nibble
(first character of the fourth group) in 8/9/a/b, case-insensitively. -/
def uuidCanonical (s : String) : Prop :=
  ∃ g1 g2 g3 g4 g5 : List Char,
    s.data = g1 ++ '-' :: (g2 ++ '-' :: (g3 ++ '-' :: (g4 ++ '-' :: g5)))
    ∧ g1.length = 8 ∧ g2.length = 4 ∧ g3.length = 4 ∧ g4.length = 4 ∧ g5.length = 12
    ∧ (∀ c ∈ g1, isHexDigit c = true) ∧ (∀ c ∈ g2, isHexDigit c = true)
    ∧ (∀ c ∈ g3, isHexDigit c = true) ∧ (∀ c ∈ g4, isHexDigit c = true)
    ∧ (∀ c ∈ g5, isHexDigit c = true)
    ∧ (∃ cv t, g3 = cv :: t ∧ isVersionNibble cv = true)
    ∧ (∃ cr t, g4 = cr :: t ∧ isVariantNibble cr = true)

/-- C8: the UUID validator returns true exactly on strings matching the
canonical 36-character 8-4-4-4-12 hyphenated hexadecimal pattern with
version nibble in 1–5 and variant nibble in 8/9/a/b, case-insensitively; it
is a pure predicate (no normalization — accepted strings are exactly the
36-character canonical forms). -/
theorem isUuid_canonical_iff :
    ∀ s : String, (isUuid s = true ↔ uuidCanonical s)
      ∧ (isUuid s = true → s.length = 36) := by
  have main : ∀ s : String, isUuid s = true ↔ uuidCanonical s := by
    intro s
    constructor
    · intro h
      unfold isUuid at h
      cases h1 : matchRun isHexDigit 8 s.data with
      | none => rw [h1] at h; simp at h
      | some r1 =>
      rw [h1] at h
      simp only [Option.some_bind] at h
      cases h2 : matchLit '-' r1 with
      | none => rw [h2] at h; simp at h
      | some r2 =>
      rw [h2] at h
      simp only [Option.some_bind] at h
      cases h3 : matchRun isHexDigit 4 r2 with
      | none => rw [h3] at h; simp at h
      | some r3 =>
      rw [h3] at h
      simp only [Option.some_bind] at h
      cases h4 : matchLit '-' r3 with
      | none => rw [h4] at h; simp at h
      | some r4 =>
      rw [h4] at h
      simp only [Option.some_bind] at h
      cases h5 : matchRun isVersionNibble 1 r4 with
      | none => rw [h5] at h; simp at h
      | some r5 =>
      rw [h5] at h
      simp only [Option.some_bind] at h
      cases h6 : matchRun isHexDigit 3 r5 with
      | none => rw [h6] at h; simp at h
      | some r6 =>
      rw [h6] at h
      simp only [Option.some_bind] at h
      cases h7 : matchLit '-' r6 with
      | none => rw [h7] at h; simp at h
      | some r7 =>
      rw [h7] at h
      simp only [Option.some_bind] at h
      cases h8 : matchRun isVariantNibble 1 r7 with
      | none => rw [h8] at h; simp at h
      | some r8 =>
      rw [h8] at h
      simp only [Option.some_bind] at h
      cases h9 : matchRun isHexDigit 3 r8 with
      | none => rw [h9] at h; simp at h
      | some r9 =>
      rw [h9] at h
      simp only [Option.some_bind] at h
      cases h10 : matchLit '-' r9 with
      | none => rw [h10] at h; simp at h
      | some r10 =>
      rw [h10] at h
      simp only [Option.some_bind] at h
      cases h11 : matchRun isHexDigit 12 r10 with
      | none => rw [h11] at h; simp at h
      | some r11 =>
      rw [h11] at h
      simp only [Option.some_bind] at h
      cases r11 with
      | cons c cs => simp [List.isEmpty] at h
      | nil =>
      obtain ⟨g1, hd1, hl1, ha1⟩ := (matchRun_eq_some isHexDigit 8 s.data r1).mp h1
      have hd2 := (matchLit_eq_some '-' r1 r2).mp h2
      obtain ⟨g2, hd3, hl3, ha3⟩ := (matchRun_eq_some isHexDigit 4 r2 r3).mp h3
      have hd4 := (matchLit_eq_some '-' r3 r4).mp h4
      obtain ⟨gv, hdv, hlv, hav⟩ := (matchRun_eq_some isVersionNibble 1 r4 r5).mp h5
      obtain ⟨cv, rfl⟩ := List.length_eq_one.mp hlv
      obtain ⟨g3a, hd6, hl6, ha6⟩ := (matchRun_eq_some isHexDigit 3 r5 r6).mp h6
      have hd7 := (matchLit_eq_some '-' r6 r7).mp h7
      obtain ⟨gr, hdr, hlr, har⟩ := (matchRun_eq_some isVariantNibble 1 r7 r8).mp h8
      obtain ⟨cr, rfl⟩ := List.length_eq_one.mp hlr
      obtain ⟨g4a, hd9, hl9, ha9⟩ := (matchRun_eq_some isHexDigit 3 r8 r9).mp h9
      have hd10 := (matchLit_eq_some '-' r9 r10).mp h10
      obtain ⟨g5, hd11, hl11, ha11⟩ := (matchRun_eq_some isHexDigit 12 r10 []).mp h11
      refine ⟨g1, g2, cv :: g3a, cr :: g4a, g5, ?_, hl1, hl3, by simp [hl6],
        by simp [hl9], by simpa using hl11, ha1, ha3, ?_, ?_, ?_,
        ⟨cv, g3a, rfl, hav cv (by simp)⟩, ⟨cr, g4a, rfl, har cr (by simp)⟩⟩
      · rw [hd1, hd2, hd3, hd4, hdv, hd6, hd7, hdr, hd9, hd10, hd11]
        simp
      · intro c hc
        rcases List.mem_cons.mp hc with rfl | hc
        · exact isVersionNibble_hex c (hav c (by simp))
        · exact ha6 c hc
      · intro c hc
        rcases List.mem_cons.mp hc with rfl | hc
        · exact isVariantNibble_hex c (har c (by simp))
        · exact ha9 c hc
      · intro c hc
        exact ha11 c (by simpa using hc)
    · rintro ⟨g1, g2, g3, g4, g5, hdata, hl1, hl2, hl3, hl4, hl5,
        ha1, ha2, ha3, ha4, ha5, ⟨cv, t3, rfl, hcv⟩, ⟨cr, t4, rfl, hcr⟩⟩
      have hlt3 : t3.length = 3 := by
        simp only [List.length_cons] at hl3
        omega
      have hlt4 : t4.length = 3 := by
        simp only [List.length_cons] at hl4
        omega
      have s1 : matchRun isHexDigit 8 s.data
          = some ('-' :: (g2 ++ '-' :: ((cv :: t3) ++ '-' :: ((cr :: t4) ++ '-' :: g5)))) :=
        (matchRun_eq_some _ _ _ _).mpr ⟨g1, hdata, hl1, ha1⟩
      have s3 : matchRun isHexDigit 4
            (g2 ++ '-' :: ((cv :: t3) ++ '-' :: ((cr :: t4) ++ '-' :: g5)))
          = some ('-' :: ((cv :: t3) ++ '-' :: ((cr :: t4) ++ '-' :: g5))) :=
        (matchRun_eq_some _ _ _ _).mpr ⟨g2, rfl, hl2, ha2⟩
      have s5 : matchRun isVersionNibble 1
            ((cv :: t3) ++ '-' :: ((cr :: t4) ++ '-' :: g5))
          = some (t3 ++ '-' :: ((cr :: t4) ++ '-' :: g5)) :=
        (matchRun_eq_some _ _ _ _).mpr ⟨[cv], by simp, by simp, by simpa using hcv⟩
      have s6 : matchRun isHexDigit 3 (t3 ++ '-' :: ((cr :: t4) ++ '-' :: g5))
          = some ('-' :: ((cr :: t4) ++ '-' :: g5)) :=
        (matchRun_eq_some _ _ _ _).mpr
          ⟨t3, rfl, hlt3, fun c hc => ha3 c (List.mem_cons_of_mem _ hc)⟩
      have s8 : matchRun isVariantNibble 1 ((cr :: t4) ++ '-' :: g5)
          = some (t4 ++ '-' :: g5) :=
        (matchRun_eq_some _ _ _ _).mpr ⟨[cr], by simp, by simp, by simpa using hcr⟩
      have s9 : matchRun isHexDigit 3 (t4 ++ '-' :: g5) = some ('-' :: g5) :=
        (matchRun_eq_some _ _ _ _).mpr
          ⟨t4, rfl, hlt4, fun c hc => ha4 c (List.mem_cons_of_mem _ hc)⟩
      have s11 : matchRun isHexDigit 12 g5 = some [] :=
        (matchRun_eq_some _ _ _ _).mpr ⟨g5, by simp, hl5, ha5⟩
      unfold isUuid
      simp only [s1, matchLit_self, s3, s5, s6, s8, s9, s11, Option.some_bind,
        List.isEmpty_nil, if_true]
  intro s
  refine ⟨main s, ?_⟩
  intro h
  obtain ⟨g1, g2, g3, g4, g5, hdata, hl1, hl2, hl3, hl4, hl5, -⟩ := (main s).mp h
  have : s.data.length = 36 := by
    rw [hdata]
    simp [hl1, hl2, hl3, hl4, hl5]
  rw [← String.length_data]
  exact this

/-- Witness for C8 at the concrete identifier
`123e4567-e89b-12d3-a456-426614174000`. -/
theorem isUuid_canonical_iff_witness :
    uuidCanonical "123e4567-e89b-12d3-a456-426614174000"
    ∧ ("123e4567-e89b-12d3-a456-426614174000" : String).length = 36 :=
  ⟨((isUuid_canonical_iff "123e4567-e89b-12d3-a456-426614174000").1).mp rfl,
    (isUuid_canonical_iff "123e4567-e89b-12d3-a456-426614174000").2 rfl⟩
